import Mathlib

/-!
Verification of the streaming NDJSON aggregation pipeline of the
lichess tournament analyzer (`src/server.js`).

The development shallowly embeds the pipeline:
  * a model of JavaScript numeric values (`JsNum`: finite rational,
    positive or negative infinity, or NaN), of the decoded game records,
    and of the per-player accumulators;
  * the per-game classifier updating the tournament counters
    (`classifyStep`, lines 76-93 of `server.js`);
  * the per-side player aggregation (`sideStep`, lines 95-111);
  * the metrics finalizer and the eligibility pool (lines 117-125);
  * the post-stream response decision (`analyze`, lines 114-146) and the
    mapping from error kinds to HTTP status codes;
  * the incremental NDJSON splitter `forEachNdjson` (lines 21-45),
    including a byte-level model of incremental UTF-8 decoding
    (`TextDecoder` with `stream: true`).
-/

/-- A JavaScript number as observed by the aggregation code: a finite value
(modelled as a rational), positive infinity, negative infinity, or `NaN`.
A record field that is missing or non-numeric coerces (via `Number(...)`)
to `nan`; an overflowing JSON literal such as `1e999` parses to an
infinity. -/
inductive JsNum where
  | fin : ℚ → JsNum
  | posInf : JsNum
  | negInf : JsNum
  | nan : JsNum
deriving DecidableEq

/-- JavaScript addition on numbers: `NaN` is absorbing, an infinity absorbs
finite values, and opposite infinities give `NaN`. -/
def JsNum.add : JsNum → JsNum → JsNum
  | JsNum.nan, _ => JsNum.nan
  | _, JsNum.nan => JsNum.nan
  | JsNum.posInf, JsNum.negInf => JsNum.nan
  | JsNum.negInf, JsNum.posInf => JsNum.nan
  | JsNum.posInf, _ => JsNum.posInf
  | _, JsNum.posInf => JsNum.posInf
  | JsNum.negInf, _ => JsNum.negInf
  | _, JsNum.negInf => JsNum.negInf
  | JsNum.fin a, JsNum.fin b => JsNum.fin (a + b)

/-- The JS idiom `Number(x) || 0`: only the falsy values - `NaN` and `0` -
become `0` (`0` itself already is `0`); a non-zero finite value and both
infinities are kept unchanged. -/
def JsNum.orZero : JsNum → JsNum
  | JsNum.fin q => JsNum.fin q
  | JsNum.posInf => JsNum.posInf
  | JsNum.negInf => JsNum.negInf
  | JsNum.nan => JsNum.fin 0

/-- The `user` sub-object of one side of a game.  `name` is `none` when the
upstream record carries a `null`/absent name. -/
structure UserRec where
  name : Option String
deriving DecidableEq

/-- The per-side analysis block (`players.<color>.analysis`).  Count fields
are stored after `Number(...)` coercion (a missing or non-numeric field is
`JsNum.nan`, an overflowing literal an infinity); `accuracy` is `none` when
null or absent. -/
structure SideAnalysis where
  inaccuracy : JsNum
  mistake : JsNum
  blunder : JsNum
  accuracy : Option JsNum
deriving DecidableEq

/-- One side (`players.white` / `players.black`) of a decoded game record. -/
structure SideRec where
  user : Option UserRec
  team : Option String
  analysis : Option SideAnalysis
deriving DecidableEq

/-- The `players` object of a game record; either sub-object may be absent. -/
structure PlayersRec where
  white : Option SideRec
  black : Option SideRec
deriving DecidableEq

/-- A decoded NDJSON game record, with exactly the fields the pipeline
reads: `players`, `moves` (a space-separated token string, possibly absent)
and `status`. -/
structure Game where
  players : Option PlayersRec
  moves : Option String
  status : Option String
deriving DecidableEq

inductive Color where
  | white
  | black
deriving DecidableEq

/-- `g.players?.[c]` -/
def sideOf (g : Game) (c : Color) : Option SideRec :=
  g.players.bind (fun p => match c with | Color.white => p.white | Color.black => p.black)

/-- `g.players?.[c]?.analysis` -/
def sideAnalysis (g : Game) (c : Color) : Option SideAnalysis :=
  (sideOf g c).bind (fun sd => sd.analysis)

/-- `g.players?.[c]?.team` -/
def sideTeam (g : Game) (c : Color) : Option String :=
  (sideOf g c).bind (fun sd => sd.team)

/-- `g.players?.[c]?.user?.name` -/
def rawName (g : Game) (c : Color) : Option String :=
  ((sideOf g c).bind (fun sd => sd.user)).bind (fun u => u.name)

/-- JS truthiness of an optional string: `null`/`undefined` and `""` are falsy. -/
def strTruthy : Option String → Bool
  | some s => !(s == "")
  | none => false

/-- `const name = g.players?.[c]?.user?.name || "Anonymous"` (line 96). -/
def keyName (g : Game) (c : Color) : String :=
  match rawName g c with
  | some s => if s == "" then "Anonymous" else s
  | none => "Anonymous"

/-- `g.players?.white?.analysis != null` (line 79). -/
def hasWhiteA (g : Game) : Bool := (sideAnalysis g Color.white).isSome

/-- `g.players?.black?.analysis != null` (line 80). -/
def hasBlackA (g : Game) : Bool := (sideAnalysis g Color.black).isSome

/-- JS truthiness of `g.moves` (a missing or empty move string is falsy). -/
def movesTruthy (g : Game) : Bool :=
  match g.moves with
  | some s => !(s == "")
  | none => false

/-- `const moveCount = g.moves ? g.moves.split(" ").length : 0` (line 85). -/
def moveCount (g : Game) : Nat :=
  match g.moves with
  | some s => if s == "" then 0 else (s.splitOn " ").length
  | none => 0

/-- `moveCount < 10 || g.status === "aborted" || g.status === "noStart"` (line 86). -/
def isShortGame (g : Game) : Bool :=
  decide (moveCount g < 10) || (g.status == some "aborted") || (g.status == some "noStart")

/-- The tournament-level counters of one request (lines 67-71). -/
structure Counters where
  gameCount : Nat
  unanalyzedCount : Nat
  lichessCount : Nat
  fullyAnalyzedCount : Nat
  shortCount : Nat
deriving DecidableEq

def initCounters : Counters :=
  { gameCount := 0, unanalyzedCount := 0, lichessCount := 0,
    fullyAnalyzedCount := 0, shortCount := 0 }

/-- The per-game classifier (lines 76-93 of `server.js`): increments
`gameCount`, then `lichessCount` / `fullyAnalyzedCount` from the two
analysis flags, then `shortCount` or `unanalyzedCount` for games missing at
least one side's analysis. -/
def classifyStep (ct : Counters) (g : Game) : Counters :=
  let ct1 := { ct with gameCount := ct.gameCount + 1 }
  let ct2 := if hasWhiteA g || hasBlackA g
             then { ct1 with lichessCount := ct1.lichessCount + 1 } else ct1
  let ct3 := if hasWhiteA g && hasBlackA g
             then { ct2 with fullyAnalyzedCount := ct2.fullyAnalyzedCount + 1 } else ct2
  if !(hasWhiteA g) || !(hasBlackA g) then
    if isShortGame g then { ct3 with shortCount := ct3.shortCount + 1 }
    else if movesTruthy g then { ct3 with unanalyzedCount := ct3.unanalyzedCount + 1 }
    else ct3
  else ct3

/-- A per-player accumulator (line 97 of `server.js`).  `accuracies` holds
the pushed values `Number(a.accuracy) || 0` (never NaN, but possibly an
infinity). -/
structure PlayerStats where
  username : String
  inaccuracies : JsNum
  mistakes : JsNum
  blunders : JsNum
  gamesPlayed : Nat
  analyzedGames : Nat
  team : Option String
  accuracies : List JsNum
deriving DecidableEq

/-- The accumulator created on first occurrence of a player name (line 97):
all counters zero, team seeded from the creating side's raw team value. -/
def initStats (g : Game) (c : Color) (name : String) : PlayerStats :=
  { username := name, inaccuracies := JsNum.fin 0, mistakes := JsNum.fin 0,
    blunders := JsNum.fin 0, gamesPlayed := 0, analyzedGames := 0,
    team := sideTeam g c, accuracies := [] }

/-- `if (!s.team && g.players?.[c]?.team) s.team = g.players?.[c]?.team` (line 101). -/
def updTeam (g : Game) (c : Color) (s : PlayerStats) : PlayerStats :=
  { s with team := if !(strTruthy s.team) && strTruthy (sideTeam g c)
                   then sideTeam g c else s.team }

/-- Lines 103-110: if the side's analysis is present, add the
`Number(...) || 0` coercions of its count fields, push the coerced accuracy
when non-null, and bump `analyzedGames`. -/
def updAnalysis (g : Game) (c : Color) (s : PlayerStats) : PlayerStats :=
  match sideAnalysis g c with
  | some a =>
    { s with
      inaccuracies := s.inaccuracies.add a.inaccuracy.orZero,
      mistakes := s.mistakes.add a.mistake.orZero,
      blunders := s.blunders.add a.blunder.orZero,
      accuracies := s.accuracies ++
        (match a.accuracy with | some v => [v.orZero] | none => []),
      analyzedGames := s.analyzedGames + 1 }
  | none => s

/-- The in-place mutation applied to the fetched accumulator for one side
occurrence (lines 99-110): `gamesPlayed++`, the sticky team update, then the
analysis accumulation. -/
def updSide (g : Game) (c : Color) (s : PlayerStats) : PlayerStats :=
  updAnalysis g c (updTeam g c { s with gamesPlayed := s.gamesPlayed + 1 })

/-- The player map `ps` is a `Map` keyed by username with insertion order;
modelled as a list of accumulators with unique usernames, new entries
appended at the end. -/
def containsName (m : List PlayerStats) (name : String) : Bool :=
  m.any (fun s => s.username == name)

def findName (m : List PlayerStats) (name : String) : Option PlayerStats :=
  m.find? (fun s => s.username == name)

/-- Replace the (first) entry with the given username by `f` of it. -/
def updateFirst : List PlayerStats → String → (PlayerStats → PlayerStats) → List PlayerStats
  | [], _, _ => []
  | s :: rest, name, f =>
    if s.username == name then f s :: rest else s :: updateFirst rest name f

/-- Processing of one side of one game (lines 95-111): resolve the identity
key, create the accumulator if absent, then mutate it with `updSide`. -/
def sideStep (g : Game) (c : Color) (m : List PlayerStats) : List PlayerStats :=
  updateFirst
    (if containsName m (keyName g c) then m else m ++ [initStats g c (keyName g c)])
    (keyName g c) (updSide g c)

/-- Processing of one decoded game: classifier plus both sides, white first
(the `for (const c of ["white", "black"])` loop). -/
def gameStep (st : Counters × List PlayerStats) (g : Game) : Counters × List PlayerStats :=
  (classifyStep st.1 g, sideStep g Color.black (sideStep g Color.white st.2))

/-- The whole aggregation pass over a finite stream of decoded games. -/
def runGames (games : List Game) : Counters × List PlayerStats :=
  games.foldl gameStep (initCounters, [])

/-- `Math.round` on a (finite) JS number: round half toward plus infinity. -/
def jsRound (x : ℚ) : ℤ := Int.floor (x + 1/2)

/-- JS division of a number by an array length (`x / n`); a finite value
divided by 0 gives a signed infinity, or NaN for `0 / 0`. -/
def JsNum.divNat : JsNum → Nat → JsNum
  | JsNum.fin q, n =>
    if n = 0 then (if 0 < q then JsNum.posInf else if q < 0 then JsNum.negInf else JsNum.nan)
    else JsNum.fin (q / (n : ℚ))
  | JsNum.posInf, _ => JsNum.posInf
  | JsNum.negInf, _ => JsNum.negInf
  | JsNum.nan, _ => JsNum.nan

/-- `x * 10` in JS arithmetic. -/
def JsNum.mulTen : JsNum → JsNum
  | JsNum.fin q => JsNum.fin (q * 10)
  | JsNum.posInf => JsNum.posInf
  | JsNum.negInf => JsNum.negInf
  | JsNum.nan => JsNum.nan

/-- `x / 10` in JS arithmetic. -/
def JsNum.divTen : JsNum → JsNum
  | JsNum.fin q => JsNum.fin (q / 10)
  | JsNum.posInf => JsNum.posInf
  | JsNum.negInf => JsNum.negInf
  | JsNum.nan => JsNum.nan

/-- `Math.round` on a JS number: half-up on finite values; NaN and the
infinities are returned unchanged. -/
def jsRoundNum : JsNum → JsNum
  | JsNum.fin q => JsNum.fin ((jsRound q : ℤ) : ℚ)
  | JsNum.posInf => JsNum.posInf
  | JsNum.negInf => JsNum.negInf
  | JsNum.nan => JsNum.nan

/-- A finalized per-player metric: the accumulator plus the derived
`accuracy` field (line 117-119 of `server.js`). -/
structure Metric extends PlayerStats where
  accuracy : JsNum
deriving DecidableEq

/-- `{...p, accuracy: p.accuracies.length > 0 ?
Math.round((p.accuracies.reduce((a, b) => a + b, 0) / p.accuracies.length) * 10) / 10 : 0}` -/
def metricsOf (p : PlayerStats) : Metric :=
  { toPlayerStats := p,
    accuracy :=
      if 0 < p.accuracies.length
      then (jsRoundNum (((p.accuracies.foldl JsNum.add (JsNum.fin 0)).divNat
             p.accuracies.length).mulTen)).divTen
      else JsNum.fin 0 }

/-- `p.analyzedGames / p.gamesPlayed >= 0.5` with JS division semantics: when
`gamesPlayed = 0` the quotient is `Infinity` (comparison true) for a positive
numerator and `NaN` (comparison false) for a zero numerator. -/
def jsRatioGeHalf (a g : Nat) : Bool :=
  if g = 0 then decide (0 < a)
  else decide ((1 : ℚ)/2 ≤ (a : ℚ) / (g : ℚ))

/-- `metrics.filter(p => p.analyzedGames > 0)` (line 122). -/
def withAnalysis (ms : List Metric) : List Metric :=
  ms.filter (fun p => decide (0 < p.analyzedGames))

/-- `metrics.filter(p => p.analyzedGames >= 4 && (p.analyzedGames / p.gamesPlayed) >= 0.5)` (line 123). -/
def eligible (ms : List Metric) : List Metric :=
  ms.filter (fun p => decide (4 ≤ p.analyzedGames) && jsRatioGeHalf p.analyzedGames p.gamesPlayed)

/-- `const pool = eligible.length >= 2 ? eligible : withAnalysis` (line 124). -/
def pool (ms : List Metric) : List Metric :=
  if 2 ≤ (eligible ms).length then eligible ms else withAnalysis ms

/-- The parts of the success payload the verified claims reference
(lines 130-146; the superlative ranking block is outside the claims). -/
structure Payload where
  gameCount : Nat
  analyzedByLichess : Nat
  totalAnalyzed : Nat
  skippedShortGames : Nat
  unanalyzedGames : Nat
  eligiblePlayers : Nat
  totalPlayersWithAnalysis : Nat
  playerMetrics : List Metric
deriving DecidableEq

inductive Outcome where
  | err : Nat → String → Outcome
  | ok : Payload → Outcome
deriving DecidableEq

def Outcome.isErr : Outcome → Bool
  | Outcome.err _ _ => true
  | Outcome.ok _ => false

/-- The post-stream part of the request handler (lines 114-146): the
zero-games guard, metric finalization, the empty-pool guard, and the
success payload. -/
def analyze (games : List Game) : Outcome :=
  if (runGames games).1.gameCount = 0 then Outcome.err 404 "Aucune partie trouvée."
  else if pool ((runGames games).2.map metricsOf) = [] then
    Outcome.err 400 "Aucune partie analysée."
  else Outcome.ok
    { gameCount := (runGames games).1.gameCount,
      analyzedByLichess := (runGames games).1.lichessCount,
      totalAnalyzed := (runGames games).1.fullyAnalyzedCount,
      skippedShortGames := (runGames games).1.shortCount,
      unanalyzedGames := (runGames games).1.unanalyzedCount,
      eligiblePlayers := (pool ((runGames games).2.map metricsOf)).length,
      totalPlayersWithAnalysis := (withAnalysis ((runGames games).2.map metricsOf)).length,
      playerMetrics := (runGames games).2.map metricsOf }

/-- The error taxonomy of the spec; `NoDataError` arises at two distinct
code sites (zero games decoded / empty ranking pool), kept separate here. -/
inductive ErrKind where
  | validation
  | notFound
  | upstream
  | decode
  | timeout
  | noDataZeroGames
  | noDataEmptyPool
deriving DecidableEq

/-- The HTTP status each error kind receives in `server.js`:
validation 400 (lines 51-53), metadata lookup 404 (line 59), stream fetch
500 (line 64), zero games 404 (line 114), empty pool 400 (line 125),
`AbortError` 504 (line 149), any other thrown error - including a
`JSON.parse` decode failure - 500 (line 150). -/
def statusOf : ErrKind → Nat
  | ErrKind.validation => 400
  | ErrKind.notFound => 404
  | ErrKind.upstream => 500
  | ErrKind.decode => 500
  | ErrKind.timeout => 504
  | ErrKind.noDataZeroGames => 404
  | ErrKind.noDataEmptyPool => 400

/-- The Unicode replacement character emitted by `TextDecoder` for invalid
or truncated byte sequences. -/
def replChar : Char := '�'

/-- Length of the UTF-8 sequence announced by a lead byte
(0 for a continuation or invalid lead byte). -/
def seqLen (b : Nat) : Nat :=
  if b < 0x80 then 1
  else if b < 0xC0 then 0
  else if b < 0xE0 then 2
  else if b < 0xF0 then 3
  else if b < 0xF8 then 4
  else 0

/-- Is `b` a UTF-8 continuation byte? -/
def isCont (b : Nat) : Bool := decide (0x80 ≤ b) && decide (b < 0xC0)

/-- Decode one complete UTF-8 byte sequence into a character (replacement
character for malformed input). -/
def decodeSeq (bs : List Nat) : Char :=
  match bs with
  | [b] => if b < 0x80 then Char.ofNat b else replChar
  | [b1, b2] =>
    let cp := (b1 - 0xC0) * 64 + (b2 - 0x80)
    if 0x80 ≤ cp then Char.ofNat cp else replChar
  | [b1, b2, b3] =>
    let cp := (b1 - 0xE0) * 4096 + (b2 - 0x80) * 64 + (b3 - 0x80)
    if 0x800 ≤ cp ∧ (cp < 0xD800 ∨ 0xDFFF < cp) then Char.ofNat cp else replChar
  | [b1, b2, b3, b4] =>
    let cp := (b1 - 0xF0) * 262144 + (b2 - 0x80) * 4096 + (b3 - 0x80) * 64 + (b4 - 0x80)
    if 0x10000 ≤ cp ∧ cp ≤ 0x10FFFF then Char.ofNat cp else replChar
  | _ => replChar

/-- One byte of incremental UTF-8 decoding.  The state is the pending
(incomplete) sequence buffered by the decoder across chunk boundaries. -/
def stepByte (p : List Nat) (b : Nat) : List Nat × List Char :=
  match p with
  | [] =>
    if seqLen b = 1 then ([], [decodeSeq [b]])
    else if seqLen b = 0 then ([], [replChar])
    else ([b], [])
  | lead :: _ =>
    if isCont b then
      if (p ++ [b]).length = seqLen lead then ([], [decodeSeq (p ++ [b])])
      else (p ++ [b], [])
    else
      if seqLen b = 1 then ([], [replChar, decodeSeq [b]])
      else if seqLen b = 0 then ([], [replChar, replChar])
      else ([b], [replChar])

/-- `decoder.decode(value, { stream: true })`: feed a chunk of bytes through
the incremental decoder, returning the new pending state and the decoded
text. -/
def decodeBytes : List Nat → List Nat → List Nat × List Char
  | p, [] => (p, [])
  | p, b :: bs =>
    ((decodeBytes (stepByte p b).1 bs).1,
     (stepByte p b).2 ++ (decodeBytes (stepByte p b).1 bs).2)

/-- `decoder.decode()` with no argument: the final flush.  A pending
incomplete sequence yields one replacement character. -/
def decFlush (p : List Nat) : List Char :=
  if p.isEmpty then [] else [replChar]

/-- The whitespace characters removed by `String.prototype.trim`
(the ones expressible in the byte-level model). -/
def isWS (c : Char) : Bool :=
  c == ' ' || c == '\t' || c == '\n' || c == '\r' || c == '\x0B' || c == '\x0C'

/-- `line.trim()` on a character list. -/
def trimChars (l : List Char) : List Char :=
  ((l.dropWhile isWS).reverse.dropWhile isWS).reverse

/-- `if (line) onItem(JSON.parse(line))`: the record emitted for one raw
line, empty after trimming means nothing is emitted. -/
def maybeEmit (l : List Char) : List (List Char) :=
  if (trimChars l).isEmpty then [] else [trimChars l]

/-- The inner `while (newlineIndex !== -1)` loop of `forEachNdjson`
(lines 33-39): scan the buffer, emit each trimmed non-empty complete line,
and return the remainder after the last newline.  `cur` is the prefix of the
current line scanned so far. -/
def extractAux : List Char → List Char → List (List Char) × List Char
  | cur, [] => ([], cur)
  | cur, c :: cs =>
    if c = '\n' then
      ((maybeEmit cur) ++ (extractAux [] cs).1, (extractAux [] cs).2)
    else extractAux (cur ++ [c]) cs

/-- The splitter state between two chunks: the decoder's pending bytes and
the text buffer (`let buffer = ""`). -/
structure NdState where
  pending : List Nat
  buf : List Char
deriving DecidableEq

/-- Lines 32-39 of `forEachNdjson`: decode one chunk incrementally, append
to the buffer, and extract all complete lines. -/
def feedChunk (st : NdState) (chunk : List Nat) : NdState × List (List Char) :=
  let d := decodeBytes st.pending chunk
  let e := extractAux [] (st.buf ++ d.2)
  ({ pending := d.1, buf := e.2 }, e.1)

/-- The chunk-consuming loop (lines 28-40). -/
def runChunks : NdState → List (List Nat) → NdState × List (List Char)
  | st, [] => (st, [])
  | st, c :: cs =>
    (((runChunks (feedChunk st c).1 cs)).1,
     (feedChunk st c).2 ++ (runChunks (feedChunk st c).1 cs).2)

/-- Lines 42-44: flush the decoder, trim the remaining buffer, and emit it
as one final record if non-empty. -/
def finishRun (st : NdState) : List (List Char) :=
  maybeEmit (st.buf ++ decFlush st.pending)

/-- The full `forEachNdjson` run over a chunked byte stream: the ordered
sequence of (trimmed, non-empty) line payloads handed to `onItem`. -/
def ndjsonLines (chunks : List (List Nat)) : List (List Char) :=
  (runChunks { pending := [], buf := [] } chunks).2 ++
    finishRun (runChunks { pending := [], buf := [] } chunks).1

/-- One-shot decoding of a whole byte stream: stream-decode everything,
then flush. -/
def decodeAll (bs : List Nat) : List Char :=
  (decodeBytes [] bs).2 ++ decFlush (decodeBytes [] bs).1

/-- Split a character list at every newline; the last segment is the
unterminated tail. -/
def splitOnNl : List Char → List (List Char)
  | [] => [[]]
  | c :: cs =>
    if c = '\n' then [] :: splitOnNl cs
    else
      match splitOnNl cs with
      | [] => [[c]]
      | l :: ls => (c :: l) :: ls

/-- The chunking-independent specification of the splitter: split the whole
decoded text at newlines, trim every segment (the unterminated last one
included), and keep the non-empty ones. -/
def linesSpec (s : List Char) : List (List Char) :=
  ((splitOnNl s).map trimChars).filter (fun l => !l.isEmpty)

lemma not_short_moves (g : Game) (h : isShortGame g = false) :
    movesTruthy g = true ∧ g.moves.isNone = false := by
  have h10 : ¬ (moveCount g < 10) := by
    intro hlt
    simp [isShortGame, hlt] at h
  cases hm : g.moves with
  | none => exact absurd (by simp [moveCount, hm]) h10
  | some s =>
    by_cases hs : s == ""
    · simp only [beq_iff_eq] at hs
      exact absurd (by simp [moveCount, hm, hs]) h10
    · exact ⟨by simp [movesTruthy, hm, hs], by simp [hm]⟩

/-- C1: per decoded game, `shortCount` is incremented exactly when at least
one side's analysis is missing and the game is short (fewer than 10 move
tokens, or status "aborted"/"noStart"); otherwise `unanalyzedCount` is
incremented exactly when a move list is present; a record with no move list
is always short (so it never reaches the unanalyzed branch), and a game with
both sides analyzed increments neither counter. -/
theorem c1_classifier_counts (ct : Counters) (g : Game) :
    (classifyStep ct g).shortCount =
      ct.shortCount + (if (!(hasWhiteA g && hasBlackA g)) && isShortGame g then 1 else 0) ∧
    (classifyStep ct g).unanalyzedCount =
      ct.unanalyzedCount +
        (if (!(hasWhiteA g && hasBlackA g)) && !(isShortGame g) && !(g.moves.isNone)
         then 1 else 0) ∧
    (g.moves = none → isShortGame g = true) := by
  refine ⟨?_, ?_, ?_⟩
  · unfold classifyStep
    cases hw : hasWhiteA g <;> cases hb : hasBlackA g <;> cases hs : isShortGame g <;>
      simp [hw, hb, hs, apply_ite Counters.shortCount]
  · unfold classifyStep
    cases hw : hasWhiteA g <;> cases hb : hasBlackA g <;> cases hs : isShortGame g <;>
      simp [hw, hb, hs, apply_ite Counters.unanalyzedCount] <;>
      rcases not_short_moves g hs with ⟨hmv, hnone⟩ <;>
      cases hm2 : g.moves <;> simp_all
  · intro hm
    simp [isShortGame, moveCount, hm]

/-- Witness for C1 at a concrete record with no move list. -/
theorem c1_witness :
    isShortGame { players := none, moves := none, status := none } = true :=
  (c1_classifier_counts initCounters { players := none, moves := none, status := none }).2.2 rfl

/-- C10: the aggregation identity key is the side's username when present
and non-empty, and the literal "Anonymous" when the user object is absent,
the name is null, or the name is the empty string. -/
theorem c10_identity_key (g : Game) (c : Color) :
    ((sideOf g c).bind (fun sd => sd.user) = none → keyName g c = "Anonymous") ∧
    (∀ u : UserRec, (sideOf g c).bind (fun sd => sd.user) = some u → u.name = none →
      keyName g c = "Anonymous") ∧
    (rawName g c = some "" → keyName g c = "Anonymous") ∧
    (∀ s : String, rawName g c = some s → ¬ s = "" → keyName g c = s) := by
  refine ⟨?_, ?_, ?_, ?_⟩
  · intro h
    simp [keyName, rawName, h]
  · intro u hu hn
    simp [keyName, rawName, hu, hn]
  · intro h
    simp [keyName, h]
  · intro s hs hne
    simp [keyName, hs, hne]

/-- Witness for C10 at a concrete record with a named user. -/
theorem c10_witness :
    keyName
      { players := some
          { white := some { user := some { name := some "bob" }, team := none, analysis := none },
            black := none },
        moves := none, status := none } Color.white = "bob" :=
  (c10_identity_key _ Color.white).2.2.2 "bob" rfl (by decide)

/-- The ordered list of raw team values over all side-occurrences of a
given player name in a stream (white side first within each game). -/
def teamOccs (games : List Game) (name : String) : List (Option String) :=
  (games.map (fun g =>
    ([Color.white, Color.black].filter (fun c => keyName g c == name)).map
      (fun c => sideTeam g c))).flatten

/-- The first non-null team value among a player's side-occurrences. -/
def firstNonNullTeam (games : List Game) (name : String) : Option String :=
  ((teamOccs games name).filterMap id).head?

/-- A game in which player "p" plays both sides, with team `""` on the
white side and team "A" on the black side. -/
def g6 : Game :=
  { players := some
      { white := some { user := some { name := some "p" }, team := some "", analysis := none },
        black := some { user := some { name := some "p" }, team := some "A", analysis := none } },
    moves := none, status := none }

lemma updSide_team (g : Game) (c : Color) (s : PlayerStats) :
    (updSide g c s).team =
      if !(strTruthy s.team) && strTruthy (sideTeam g c) then sideTeam g c else s.team := by
  unfold updSide updAnalysis updTeam
  cases sideAnalysis g c <;> simp

/-- Counterexample to C6: the first non-null team seen for "p" is `""`
(the white side), yet after aggregation the accumulator's team is "A" - the
empty-string team seeded at creation is treated as unset and overwritten. -/
theorem c6_counterexample :
    firstNonNullTeam [g6] "p" = some "" ∧
    (findName (runGames [g6]).2 "p").map (fun s => s.team) = some (some "A") ∧
    some "A" ≠ some "" := by
  refine ⟨rfl, rfl, by decide⟩

/-- C6 as amended: the accumulator's team is seeded at creation from the
creating side's raw team value, and on every side-occurrence it is
reassigned exactly when the current value is null or empty (JS-falsy) and
the side's team is non-null and non-empty; hence the first non-empty team
seen wins and is sticky, while a null or empty seed may later be replaced. -/
theorem c6_team_rule (g : Game) (c : Color) (s : PlayerStats) (n : String) :
    (initStats g c n).team = sideTeam g c ∧
    (strTruthy s.team = true → (updSide g c s).team = s.team) ∧
    (strTruthy s.team = false → strTruthy (sideTeam g c) = true →
      (updSide g c s).team = sideTeam g c) ∧
    (strTruthy (sideTeam g c) = false → (updSide g c s).team = s.team) := by
  refine ⟨rfl, ?_, ?_, ?_⟩
  · intro h
    rw [updSide_team]
    simp [h]
  · intro h1 h2
    rw [updSide_team]
    simp [h1, h2]
  · intro h
    rw [updSide_team]
    simp [h]

/-- Witness for C6 (amended) at a concrete accumulator with a non-empty team. -/
theorem c6_witness :
    (updSide g6 Color.white
      { username := "x", inaccuracies := JsNum.fin 0, mistakes := JsNum.fin 0,
        blunders := JsNum.fin 0, gamesPlayed := 0, analyzedGames := 0,
        team := some "X", accuracies := [] }).team = some "X" :=
  (c6_team_rule g6 Color.white
    { username := "x", inaccuracies := JsNum.fin 0, mistakes := JsNum.fin 0,
      blunders := JsNum.fin 0, gamesPlayed := 0, analyzedGames := 0,
      team := some "X", accuracies := [] } "x").2.1 (by decide)

/-- Total of `gamesPlayed` over all entries of the player map. -/
def sumGP (m : List PlayerStats) : Nat := (m.map (fun s => s.gamesPlayed)).sum

lemma updSide_gamesPlayed (g : Game) (c : Color) (s : PlayerStats) :
    (updSide g c s).gamesPlayed = s.gamesPlayed + 1 := by
  unfold updSide updAnalysis updTeam
  cases sideAnalysis g c <;> simp

lemma sumGP_updateFirst :
    ∀ (m : List PlayerStats) (n : String) (f : PlayerStats → PlayerStats),
      (∀ s, (f s).gamesPlayed = s.gamesPlayed + 1) → containsName m n = true →
      sumGP (updateFirst m n f) = sumGP m + 1
  | [], n, f, _, h => by simp [containsName] at h
  | s :: rest, n, f, hf, h => by
    by_cases hs : s.username == n
    · simp [updateFirst, hs, sumGP, hf s]
      omega
    · have h' : containsName rest n = true := by
        simpa [containsName, hs] using h
      have hrec := sumGP_updateFirst rest n f hf h'
      simp [updateFirst, hs, sumGP] at hrec ⊢
      omega

lemma containsName_append_init (m : List PlayerStats) (g : Game) (c : Color) (n : String) :
    containsName (m ++ [initStats g c n]) n = true := by
  simp [containsName, List.any_append, initStats]

lemma sumGP_sideStep (g : Game) (c : Color) (m : List PlayerStats) :
    sumGP (sideStep g c m) = sumGP m + 1 := by
  unfold sideStep
  by_cases hc : containsName m (keyName g c)
  · rw [if_pos hc]
    exact sumGP_updateFirst m _ _ (fun s => updSide_gamesPlayed g c s) hc
  · rw [if_neg hc]
    rw [sumGP_updateFirst _ _ _ (fun s => updSide_gamesPlayed g c s)
      (containsName_append_init m g c (keyName g c))]
    simp [sumGP, initStats]

lemma classifyStep_gameCount (ct : Counters) (g : Game) :
    (classifyStep ct g).gameCount = ct.gameCount + 1 := by
  unfold classifyStep
  cases hw : hasWhiteA g <;> cases hb : hasBlackA g <;> cases hs : isShortGame g <;>
    simp [hw, hb, hs, apply_ite Counters.gameCount]

lemma runAux_gameCount :
    ∀ (games : List Game) (st : Counters × List PlayerStats),
      (games.foldl gameStep st).1.gameCount = st.1.gameCount + games.length
  | [], st => by simp
  | g :: gs, st => by
    rw [List.foldl_cons, runAux_gameCount gs (gameStep st g)]
    have hstep : (gameStep st g).1.gameCount = st.1.gameCount + 1 := by
      simp [gameStep, classifyStep_gameCount]
    rw [hstep]
    simp
    omega

lemma runAux_sumGP :
    ∀ (games : List Game) (st : Counters × List PlayerStats),
      sumGP (games.foldl gameStep st).2 = sumGP st.2 + 2 * games.length
  | [], st => by simp
  | g :: gs, st => by
    rw [List.foldl_cons, runAux_sumGP gs (gameStep st g)]
    have hstep : sumGP (gameStep st g).2 = sumGP st.2 + 2 := by
      simp [gameStep, sumGP_sideStep]
    rw [hstep]
    simp
    omega

/-- C4: after aggregating any finite stream of games, the sum of
`gamesPlayed` over all player-map entries equals twice the number of decoded
games - each game charges exactly one side-occurrence to white's accumulator
and one to black's. -/
theorem c4_sum_games_played (games : List Game) :
    sumGP (runGames games).2 = 2 * (runGames games).1.gameCount := by
  unfold runGames
  rw [runAux_sumGP, runAux_gameCount]
  simp [initCounters, sumGP]

/-- The three summed counters of an accumulator are finite values. -/
def FinCounters (p : PlayerStats) : Prop :=
  (∃ x, p.inaccuracies = JsNum.fin x) ∧ (∃ x, p.mistakes = JsNum.fin x) ∧
  (∃ x, p.blunders = JsNum.fin x)

/-- The value is not a (positive or negative) infinity. -/
def notInf (v : JsNum) : Bool := !(v == JsNum.posInf) && !(v == JsNum.negInf)

/-- No analysis count field of the record is infinite.  Every JSON number
within double range satisfies this; an overflowing literal such as `1e999`
does not. -/
def finiteCounts (g : Game) : Bool :=
  [Color.white, Color.black].all (fun c =>
    match sideAnalysis g c with
    | some a => notInf a.inaccuracy && notInf a.mistake && notInf a.blunder
    | none => true)

lemma orZero_fin_of_notInf (v : JsNum) (h : notInf v = true) :
    ∃ y, v.orZero = JsNum.fin y := by
  cases v with
  | fin q => exact ⟨q, rfl⟩
  | nan => exact ⟨0, rfl⟩
  | posInf => simp [notInf] at h
  | negInf => simp [notInf] at h

lemma initStats_finCounters (g : Game) (c : Color) (n : String) :
    FinCounters (initStats g c n) :=
  ⟨⟨0, rfl⟩, ⟨0, rfl⟩, ⟨0, rfl⟩⟩

lemma finiteCounts_side (g : Game) (c : Color) (hg : finiteCounts g = true)
    (a : SideAnalysis) (ha : sideAnalysis g c = some a) :
    notInf a.inaccuracy = true ∧ notInf a.mistake = true ∧ notInf a.blunder = true := by
  have hc : c ∈ [Color.white, Color.black] := by cases c <;> simp
  have hall := List.all_eq_true.mp hg c hc
  rw [ha] at hall
  simp only [Bool.and_eq_true] at hall
  exact ⟨hall.1.1, hall.1.2, hall.2⟩

lemma updSide_finCounters (g : Game) (c : Color) (s : PlayerStats)
    (hg : finiteCounts g = true) (h : FinCounters s) : FinCounters (updSide g c s) := by
  rcases h with ⟨⟨x1, h1⟩, ⟨x2, h2⟩, ⟨x3, h3⟩⟩
  unfold updSide updAnalysis updTeam
  cases ha : sideAnalysis g c with
  | none => exact ⟨⟨x1, by simpa using h1⟩, ⟨x2, by simpa using h2⟩, ⟨x3, by simpa using h3⟩⟩
  | some a =>
    rcases finiteCounts_side g c hg a ha with ⟨f1, f2, f3⟩
    rcases orZero_fin_of_notInf _ f1 with ⟨y1, hy1⟩
    rcases orZero_fin_of_notInf _ f2 with ⟨y2, hy2⟩
    rcases orZero_fin_of_notInf _ f3 with ⟨y3, hy3⟩
    refine ⟨⟨x1 + y1, ?_⟩, ⟨x2 + y2, ?_⟩, ⟨x3 + y3, ?_⟩⟩
    · simp [h1, hy1, JsNum.add]
    · simp [h2, hy2, JsNum.add]
    · simp [h3, hy3, JsNum.add]

lemma mem_updateFirst :
    ∀ (m : List PlayerStats) (n : String) (f : PlayerStats → PlayerStats) (p : PlayerStats),
      p ∈ updateFirst m n f → p ∈ m ∨ ∃ q, q ∈ m ∧ p = f q
  | [], n, f, p => by simp [updateFirst]
  | s :: rest, n, f, p => by
    by_cases hs : s.username == n
    · simp only [updateFirst, if_pos hs, List.mem_cons]
      rintro (h | h)
      · exact Or.inr ⟨s, Or.inl rfl, h⟩
      · exact Or.inl (Or.inr h)
    · simp only [updateFirst, if_neg hs, List.mem_cons]
      rintro (h | h)
      · exact Or.inl (Or.inl h)
      · rcases mem_updateFirst rest n f p h with h' | ⟨q, hq, hpq⟩
        · exact Or.inl (Or.inr h')
        · exact Or.inr ⟨q, Or.inr hq, hpq⟩

lemma mem_sideStep (g : Game) (c : Color) (m : List PlayerStats) (p : PlayerStats)
    (hp : p ∈ sideStep g c m) :
    p ∈ m ∨ p = initStats g c (keyName g c) ∨
      ∃ q, (q ∈ m ∨ q = initStats g c (keyName g c)) ∧ p = updSide g c q := by
  unfold sideStep at hp
  by_cases hc : containsName m (keyName g c)
  · rw [if_pos hc] at hp
    rcases mem_updateFirst _ _ _ _ hp with h | ⟨q, hq, hpq⟩
    · exact Or.inl h
    · exact Or.inr (Or.inr ⟨q, Or.inl hq, hpq⟩)
  · rw [if_neg hc] at hp
    rcases mem_updateFirst _ _ _ _ hp with h | ⟨q, hq, hpq⟩
    · rcases List.mem_append.mp h with h' | h'
      · exact Or.inl h'
      · exact Or.inr (Or.inl (by simpa using h'))
    · rcases List.mem_append.mp hq with h' | h'
      · exact Or.inr (Or.inr ⟨q, Or.inl h', hpq⟩)
      · exact Or.inr (Or.inr ⟨q, Or.inr (by simpa using h'), hpq⟩)

lemma finCounters_sideStep (g : Game) (c : Color) (m : List PlayerStats)
    (hg : finiteCounts g = true) (h : ∀ p ∈ m, FinCounters p) :
    ∀ p ∈ sideStep g c m, FinCounters p := by
  intro p hp
  rcases mem_sideStep g c m p hp with h1 | h1 | ⟨q, hq, hpq⟩
  · exact h p h1
  · rw [h1]
    exact initStats_finCounters g c (keyName g c)
  · rcases hq with hq | hq
    · exact hpq ▸ updSide_finCounters g c q hg (h q hq)
    · exact hpq ▸ updSide_finCounters g c q hg (hq ▸ initStats_finCounters g c (keyName g c))

lemma finCounters_run :
    ∀ (games : List Game) (st : Counters × List PlayerStats),
      games.all finiteCounts = true → (∀ p ∈ st.2, FinCounters p) →
      ∀ p ∈ (games.foldl gameStep st).2, FinCounters p
  | [], st, _, h => by simpa using h
  | g :: gs, st, hall, h => by
    rw [List.all_cons, Bool.and_eq_true] at hall
    rw [List.foldl_cons]
    exact finCounters_run gs _ hall.2 (fun p hp =>
      finCounters_sideStep _ _ _ hall.1 (finCounters_sideStep _ _ _ hall.1 h) p hp)

/-- C5 as amended: (1) the `Number(...) || 0` coercion turns exactly the
NaN-coercing (missing or non-numeric) values into 0 and keeps every other
value, so over any stream whose analysis count fields are never infinite
every accumulator counter stays a finite value - in particular never NaN;
(2) the coercion maps `NaN` to 0 and keeps finite values; (3)-(4) an
accuracy sample - the coerced value - is appended exactly when the side's
analysis is present with a non-null accuracy field; (5) a side without
analysis leaves the sample list untouched.  (An infinite count field,
which JSON can express as an overflowing literal, survives the `|| 0`
guard, and opposite infinities drive a counter to NaN - see the
counterexample.) -/
theorem c5_coerce_or_zero (games : List Game) (p : PlayerStats) (g : Game) (c : Color)
    (s : PlayerStats) (a : SideAnalysis) :
    (games.all finiteCounts = true → p ∈ (runGames games).2 →
      p.inaccuracies ≠ JsNum.nan ∧ p.mistakes ≠ JsNum.nan ∧ p.blunders ≠ JsNum.nan) ∧
    (JsNum.nan.orZero = JsNum.fin 0 ∧ (∀ q : ℚ, (JsNum.fin q).orZero = JsNum.fin q)) ∧
    (∀ v : JsNum, sideAnalysis g c = some a → a.accuracy = some v →
      (updSide g c s).accuracies = s.accuracies ++ [v.orZero]) ∧
    (sideAnalysis g c = some a → a.accuracy = none →
      (updSide g c s).accuracies = s.accuracies) ∧
    (sideAnalysis g c = none → (updSide g c s).accuracies = s.accuracies) := by
  refine ⟨?_, ⟨rfl, fun q => rfl⟩, ?_, ?_, ?_⟩
  · intro hall hp
    rcases finCounters_run games (initCounters, []) hall (by simp) p hp with
      ⟨⟨x1, h1⟩, ⟨x2, h2⟩, ⟨x3, h3⟩⟩
    exact ⟨by simp [h1], by simp [h2], by simp [h3]⟩
  · intro v ha hv
    simp [updSide, updAnalysis, updTeam, ha, hv]
  · intro ha hv
    simp [updSide, updAnalysis, updTeam, ha, hv]
  · intro ha
    simp [updSide, updAnalysis, updTeam, ha]

/-- A game with no players object: both side-occurrences are anonymous and
unanalyzed. -/
def gAnon : Game := { players := none, moves := none, status := none }

/-- The accumulator produced for "Anonymous" by one pass over `[gAnon]`. -/
def anonEntry : PlayerStats :=
  { username := "Anonymous", inaccuracies := JsNum.fin 0, mistakes := JsNum.fin 0,
    blunders := JsNum.fin 0, gamesPlayed := 2, analyzedGames := 0,
    team := none, accuracies := [] }

/-- An analysis block with one malformed count and a present accuracy. -/
def aAcc : SideAnalysis :=
  { inaccuracy := JsNum.fin 1, mistake := JsNum.nan, blunder := JsNum.fin 2,
    accuracy := some (JsNum.fin 87) }

/-- An analysis block with a null accuracy. -/
def aNoAcc : SideAnalysis :=
  { inaccuracy := JsNum.nan, mistake := JsNum.fin 0, blunder := JsNum.fin 0,
    accuracy := none }

def gAcc : Game :=
  { players := some
      { white := some { user := none, team := none, analysis := some aAcc },
        black := none },
    moves := none, status := none }

def gNoAcc : Game :=
  { players := some
      { white := some { user := none, team := none, analysis := some aNoAcc },
        black := none },
    moves := none, status := none }

/-- Witness for C5 (amended) at concrete inputs: the finite-counter
invariant after a run over a finite-valued stream, and the three
accuracy-sample cases. -/
theorem c5_witness :
    (anonEntry.inaccuracies ≠ JsNum.nan ∧ anonEntry.mistakes ≠ JsNum.nan ∧
      anonEntry.blunders ≠ JsNum.nan) ∧
    (updSide gAcc Color.white anonEntry).accuracies = anonEntry.accuracies ++ [JsNum.fin 87] ∧
    (updSide gNoAcc Color.white anonEntry).accuracies = anonEntry.accuracies ∧
    (updSide gAnon Color.white anonEntry).accuracies = anonEntry.accuracies :=
  ⟨(c5_coerce_or_zero [gAnon] anonEntry gAnon Color.white anonEntry aAcc).1
     (by decide) (by decide),
   (c5_coerce_or_zero [gAnon] anonEntry gAcc Color.white anonEntry aAcc).2.2.1
     (JsNum.fin 87) rfl rfl,
   (c5_coerce_or_zero [gAnon] anonEntry gNoAcc Color.white anonEntry aNoAcc).2.2.2.1 rfl rfl,
   (c5_coerce_or_zero [gAnon] anonEntry gAnon Color.white anonEntry aAcc).2.2.2.2 rfl⟩

/-- An analysis block whose inaccuracy count is the parse of an overflowing
positive literal (`1e999` gives `Infinity`, which `|| 0` keeps). -/
def aInfP : SideAnalysis :=
  { inaccuracy := JsNum.posInf, mistake := JsNum.fin 0, blunder := JsNum.fin 0,
    accuracy := none }

/-- The same with `-1e999` (negative infinity). -/
def aInfM : SideAnalysis :=
  { inaccuracy := JsNum.negInf, mistake := JsNum.fin 0, blunder := JsNum.fin 0,
    accuracy := none }

def gInfP : Game :=
  { players := some
      { white := some { user := none, team := none, analysis := some aInfP },
        black := none },
    moves := none, status := none }

def gInfM : Game :=
  { players := some
      { white := some { user := none, team := none, analysis := some aInfM },
        black := none },
    moves := none, status := none }

/-- Counterexample to C5 as stated: with inaccuracy `1e999` in one game and
`-1e999` in the next for the same (anonymous) player, the coerced values
Infinity and -Infinity both pass the `|| 0` guard and sum to NaN, so an
accumulator counter does become NaN. -/
theorem c5_counterexample :
    (findName (runGames [gInfP, gInfM]).2 "Anonymous").map (fun s => s.inaccuracies) =
      some JsNum.nan := by decide

lemma elig_mem (ms : List Metric) (p : Metric) :
    p ∈ eligible ms ↔ p ∈ ms ∧ 4 ≤ p.analyzedGames ∧ p.gamesPlayed ≤ 2 * p.analyzedGames := by
  unfold eligible
  rw [List.mem_filter]
  constructor
  · rintro ⟨hm, hb⟩
    rw [Bool.and_eq_true, decide_eq_true_eq] at hb
    obtain ⟨h4, hr⟩ := hb
    refine ⟨hm, h4, ?_⟩
    unfold jsRatioGeHalf at hr
    by_cases hg : p.gamesPlayed = 0
    · omega
    · rw [if_neg hg, decide_eq_true_eq] at hr
      have hgpos : (0:ℚ) < (p.gamesPlayed : ℚ) := by
        exact_mod_cast Nat.pos_of_ne_zero hg
      rw [le_div_iff₀ hgpos] at hr
      have hq : (p.gamesPlayed : ℚ) ≤ 2 * (p.analyzedGames : ℚ) := by linarith
      exact_mod_cast hq
  · rintro ⟨hm, h4, hle⟩
    refine ⟨hm, ?_⟩
    rw [Bool.and_eq_true, decide_eq_true_eq]
    refine ⟨h4, ?_⟩
    unfold jsRatioGeHalf
    by_cases hg : p.gamesPlayed = 0
    · rw [if_pos hg, decide_eq_true_eq]
      omega
    · rw [if_neg hg, decide_eq_true_eq]
      have hgpos : (0:ℚ) < (p.gamesPlayed : ℚ) := by
        exact_mod_cast Nat.pos_of_ne_zero hg
      rw [le_div_iff₀ hgpos]
      have hq : (p.gamesPlayed : ℚ) ≤ 2 * (p.analyzedGames : ℚ) := by exact_mod_cast hle
      linarith

lemma withA_mem (ms : List Metric) (p : Metric) :
    p ∈ withAnalysis ms ↔ p ∈ ms ∧ 0 < p.analyzedGames := by
  unfold withAnalysis
  rw [List.mem_filter]
  simp

/-- C3: when at least two players are eligible (≥ 4 analyzed games and at
least half of their games analyzed) the ranking pool is exactly the
eligible set, otherwise it is exactly the set of players with any analyzed
game; a player with 3 of 3 games analyzed is in `withAnalysis` but not in
`eligible`. -/
theorem c3_ranking_pool (ms : List Metric) (p : Metric) :
    (2 ≤ (eligible ms).length →
      (p ∈ pool ms ↔ p ∈ ms ∧ 4 ≤ p.analyzedGames ∧ p.gamesPlayed ≤ 2 * p.analyzedGames)) ∧
    ((eligible ms).length < 2 →
      (p ∈ pool ms ↔ p ∈ ms ∧ 0 < p.analyzedGames)) ∧
    (p.gamesPlayed = 3 → p.analyzedGames = 3 →
      ((p ∈ withAnalysis ms ↔ p ∈ ms) ∧ p ∉ eligible ms)) := by
  refine ⟨?_, ?_, ?_⟩
  · intro h2
    unfold pool
    rw [if_pos h2]
    exact elig_mem ms p
  · intro h2
    unfold pool
    rw [if_neg (by omega)]
    exact withA_mem ms p
  · intro h3 ha
    constructor
    · rw [withA_mem]
      simp [ha]
    · intro hmem
      rcases (elig_mem ms p).mp hmem with ⟨_, h4, _⟩
      omega

/-- A finalized metric with 3 games played, all 3 analyzed. -/
def m3 : Metric :=
  { username := "q", inaccuracies := JsNum.fin 0, mistakes := JsNum.fin 0,
    blunders := JsNum.fin 0, gamesPlayed := 3, analyzedGames := 3,
    team := none, accuracies := [], accuracy := JsNum.fin 0 }

/-- Witness for C3: with a single such player the eligible set is too small,
so the pool falls back to `withAnalysis`, which contains the player. -/
theorem c3_witness : m3 ∈ pool [m3] ∧ m3 ∉ eligible [m3] :=
  ⟨((c3_ranking_pool [m3] m3).2.1 (by decide)).mpr (by decide),
   ((c3_ranking_pool [m3] m3).2.2 rfl rfl).2⟩

lemma foldl_jsAdd_fin : ∀ (l : List ℚ) (acc : ℚ),
    (l.map JsNum.fin).foldl JsNum.add (JsNum.fin acc) = JsNum.fin (acc + l.sum)
  | [], acc => by simp
  | x :: xs, acc => by
    simp only [List.map_cons, List.foldl_cons]
    rw [show JsNum.add (JsNum.fin acc) (JsNum.fin x) = JsNum.fin (acc + x) from rfl,
      foldl_jsAdd_fin xs (acc + x), List.sum_cons, add_assoc]

/-- Following the spec's words: "accuracy = round(mean(accuracy samples),
1 decimal)" - multiply by ten, round half-up to an integer, divide by ten. -/
def specRound1 (x : ℚ) : ℚ := ((Int.floor (x * 10 + 1/2) : ℤ) : ℚ) / 10

/-- C7: the finalized accuracy is 0 for an empty sample list, and the mean
of the samples rounded to one decimal place for any non-empty list of
finite samples; the samples 87.3, 91.0, 88.65 finalize to 89.0. -/
theorem c7_accuracy (p : PlayerStats) :
    (p.accuracies = [] → (metricsOf p).accuracy = JsNum.fin 0) ∧
    (∀ l : List ℚ, l ≠ [] → p.accuracies = l.map JsNum.fin →
      (metricsOf p).accuracy = JsNum.fin (specRound1 (l.sum / (l.length : ℚ)))) ∧
    (p.accuracies = [JsNum.fin (873/10), JsNum.fin 91, JsNum.fin (1773/20)] →
      (metricsOf p).accuracy = JsNum.fin 89) := by
  refine ⟨?_, ?_, ?_⟩
  · intro h
    simp [metricsOf, h]
  · intro l hl hpl
    have hl0 : l.length ≠ 0 := fun hh => hl (List.length_eq_zero.mp hh)
    have hlen : 0 < p.accuracies.length := by
      rw [hpl, List.length_map]
      exact Nat.pos_of_ne_zero hl0
    simp only [metricsOf, if_pos hlen, hpl]
    rw [foldl_jsAdd_fin l 0, List.length_map]
    simp [JsNum.divNat, hl0, JsNum.mulTen, jsRoundNum, JsNum.divTen, specRound1, jsRound]
  · intro h
    simp only [metricsOf, h]
    norm_num [JsNum.add, JsNum.divNat, JsNum.mulTen, jsRoundNum, JsNum.divTen, jsRound]

/-- The accumulator of Scenario E. -/
def p873 : PlayerStats :=
  { username := "e", inaccuracies := JsNum.fin 0, mistakes := JsNum.fin 0,
    blunders := JsNum.fin 0, gamesPlayed := 3, analyzedGames := 3,
    team := none, accuracies := [JsNum.fin (873/10), JsNum.fin 91, JsNum.fin (1773/20)] }

/-- Witness for C7 at the Scenario E sample list. -/
theorem c7_witness : (metricsOf p873).accuracy = JsNum.fin 89 :=
  (c7_accuracy p873).2.2 rfl

lemma elig_subset_withA (ms : List Metric) (p : Metric) (h : p ∈ eligible ms) :
    p ∈ withAnalysis ms := by
  rcases (elig_mem ms p).mp h with ⟨hm, h4, _⟩
  exact (withA_mem ms p).mpr ⟨hm, by omega⟩

lemma pool_empty_iff (ms : List Metric) : pool ms = [] ↔ withAnalysis ms = [] := by
  unfold pool
  by_cases h2 : 2 ≤ (eligible ms).length
  · rw [if_pos h2]
    constructor
    · intro h
      rw [h] at h2
      simp at h2
    · intro h
      exfalso
      cases he : eligible ms with
      | nil =>
        rw [he] at h2
        simp at h2
      | cons q rest =>
        have hq : q ∈ eligible ms := by
          rw [he]
          exact List.mem_cons_self q rest
        have hw := elig_subset_withA ms q hq
        rw [h] at hw
        simp at hw
  · rw [if_neg h2]

lemma runGames_gameCount (games : List Game) :
    (runGames games).1.gameCount = games.length := by
  unfold runGames
  rw [runAux_gameCount]
  simp [initCounters]

/-- C8: the request fails with a 4xx error exactly when zero games were
decoded or no player has any analyzed game (which is exactly when the
ranking pool is empty); in particular the empty stream yields the
404 no-data error, not a success payload. -/
theorem c8_no_data_errors (games : List Game) :
    ((∃ c msg, analyze games = Outcome.err c msg ∧ 400 ≤ c ∧ c < 500) ↔
      (games.length = 0 ∨ withAnalysis ((runGames games).2.map metricsOf) = [])) ∧
    analyze [] = Outcome.err 404 "Aucune partie trouvée." := by
  have hgc := runGames_gameCount games
  constructor
  · unfold analyze
    by_cases h0 : (runGames games).1.gameCount = 0
    · rw [if_pos h0]
      constructor
      · intro _
        exact Or.inl (by omega)
      · intro _
        exact ⟨404, "Aucune partie trouvée.", rfl, by omega, by omega⟩
    · rw [if_neg h0]
      by_cases hp : pool ((runGames games).2.map metricsOf) = []
      · rw [if_pos hp]
        constructor
        · intro _
          exact Or.inr ((pool_empty_iff _).mp hp)
        · intro _
          exact ⟨400, "Aucune partie analysée.", rfl, by omega, by omega⟩
      · rw [if_neg hp]
        constructor
        · rintro ⟨c, msg, hc, _, _⟩
          exact absurd hc (by simp)
        · rintro (h | h)
          · exact absurd (hgc.trans h) h0
          · exact absurd ((pool_empty_iff _).mpr h) hp
  · rfl

/-- Counterexample to C9: DecodeError and UpstreamError are distinct error
kinds, yet both receive the 500 status - the six kinds are not pairwise
distinguishable by response status. -/
theorem c9_counterexample :
    statusOf ErrKind.decode = statusOf ErrKind.upstream ∧
    ErrKind.decode ≠ ErrKind.upstream := by decide

/-- C9 as amended: the error kinds map onto only four status codes
(400, 404, 500, 504).  Validation, not-found, upstream and timeout are
pairwise distinguishable, and the timeout status is unique; but decode
shares 500 with upstream, and the no-data condition shares 404 with
not-found (zero games, as the empty stream shows) or 400 with validation
(empty pool). -/
theorem c9_status_table :
    statusOf ErrKind.validation = 400 ∧
    statusOf ErrKind.notFound = 404 ∧
    statusOf ErrKind.upstream = 500 ∧
    statusOf ErrKind.decode = 500 ∧
    statusOf ErrKind.timeout = 504 ∧
    statusOf ErrKind.noDataZeroGames = 404 ∧
    statusOf ErrKind.noDataEmptyPool = 400 ∧
    statusOf ErrKind.validation ≠ statusOf ErrKind.notFound ∧
    statusOf ErrKind.validation ≠ statusOf ErrKind.upstream ∧
    statusOf ErrKind.validation ≠ statusOf ErrKind.timeout ∧
    statusOf ErrKind.notFound ≠ statusOf ErrKind.upstream ∧
    statusOf ErrKind.notFound ≠ statusOf ErrKind.timeout ∧
    statusOf ErrKind.upstream ≠ statusOf ErrKind.timeout ∧
    statusOf ErrKind.decode ≠ statusOf ErrKind.timeout ∧
    statusOf ErrKind.noDataZeroGames ≠ statusOf ErrKind.timeout ∧
    statusOf ErrKind.noDataEmptyPool ≠ statusOf ErrKind.timeout ∧
    analyze [] = Outcome.err (statusOf ErrKind.noDataZeroGames) "Aucune partie trouvée." := by
  refine ⟨rfl, rfl, rfl, rfl, rfl, rfl, rfl, ?_, ?_, ?_, ?_, ?_, ?_, ?_, ?_, ?_, rfl⟩ <;> decide

lemma decodeBytes_append :
    ∀ (a b p : List Nat),
      decodeBytes p (a ++ b) =
        ((decodeBytes (decodeBytes p a).1 b).1,
         (decodeBytes p a).2 ++ (decodeBytes (decodeBytes p a).1 b).2)
  | [], b, p => by simp [decodeBytes]
  | x :: a, b, p => by
    simp only [List.cons_append, decodeBytes, List.append_eq]
    rw [decodeBytes_append a b (stepByte p x).1]
    simp [List.append_assoc]

lemma extractAux_no_nl :
    ∀ (v cur : List Char), '\n' ∉ v → extractAux cur v = ([], cur ++ v)
  | [], cur, _ => by simp [extractAux]
  | c :: cs, cur, h => by
    have hc : ¬ c = '\n' := fun hh => h (hh ▸ List.mem_cons_self c cs)
    simp only [extractAux, if_neg hc]
    rw [extractAux_no_nl cs (cur ++ [c]) (fun hm => h (List.mem_cons_of_mem c hm))]
    simp

lemma extractAux_append :
    ∀ (u v cur : List Char),
      extractAux cur (u ++ v) =
        ((extractAux cur u).1 ++ (extractAux (extractAux cur u).2 v).1,
         (extractAux (extractAux cur u).2 v).2)
  | [], v, cur => by simp [extractAux]
  | c :: u, v, cur => by
    by_cases hc : c = '\n'
    · subst hc
      simp only [List.cons_append, extractAux, List.append_eq, eq_self_iff_true, if_true]
      rw [extractAux_append u v []]
      simp [List.append_assoc]
    · simp only [List.cons_append, extractAux, List.append_eq, if_neg hc]
      exact extractAux_append u v (cur ++ [c])

lemma extractAux_res_no_nl :
    ∀ (v cur : List Char), '\n' ∉ cur → '\n' ∉ (extractAux cur v).2
  | [], cur, h => by simpa [extractAux] using h
  | c :: cs, cur, h => by
    by_cases hc : c = '\n'
    · subst hc
      simp only [extractAux, if_pos rfl]
      exact extractAux_res_no_nl cs [] (by simp)
    · simp only [extractAux, if_neg hc]
      refine extractAux_res_no_nl cs (cur ++ [c]) ?_
      intro hm
      rcases List.mem_append.mp hm with h1 | h1
      · exact h h1
      · simp at h1
        exact hc h1.symm

lemma splitOnNl_no_nl : ∀ (u : List Char), '\n' ∉ u → splitOnNl u = [u]
  | [], _ => rfl
  | c :: cs, h => by
    have hc : ¬ c = '\n' := fun hh => h (hh ▸ List.mem_cons_self c cs)
    simp only [splitOnNl, if_neg hc]
    rw [splitOnNl_no_nl cs (fun hm => h (List.mem_cons_of_mem c hm))]

lemma splitOnNl_append_nl :
    ∀ (u v : List Char), '\n' ∉ u → splitOnNl (u ++ '\n' :: v) = u :: splitOnNl v
  | [], v, _ => by simp [splitOnNl]
  | c :: u, v, h => by
    have hc : ¬ c = '\n' := fun hh => h (hh ▸ List.mem_cons_self c u)
    simp only [List.cons_append, splitOnNl, List.append_eq, if_neg hc]
    rw [splitOnNl_append_nl u v (fun hm => h (List.mem_cons_of_mem c hm))]

lemma linesSpec_no_nl (u : List Char) (h : '\n' ∉ u) : linesSpec u = maybeEmit u := by
  unfold linesSpec maybeEmit
  rw [splitOnNl_no_nl u h]
  by_cases he : (trimChars u).isEmpty
  · simp [he]
  · simp [he]

lemma linesSpec_cons_nl (u v : List Char) (h : '\n' ∉ u) :
    linesSpec (u ++ '\n' :: v) = maybeEmit u ++ linesSpec v := by
  unfold linesSpec maybeEmit
  rw [splitOnNl_append_nl u v h]
  by_cases he : (trimChars u).isEmpty
  · simp [he]
  · simp [he]

lemma extract_spec :
    ∀ (text cur : List Char), '\n' ∉ cur →
      (extractAux cur text).1 ++ maybeEmit (extractAux cur text).2 = linesSpec (cur ++ text)
  | [], cur, h => by
    simp only [extractAux, List.append_nil, List.nil_append]
    exact (linesSpec_no_nl cur h).symm
  | c :: cs, cur, h => by
    by_cases hc : c = '\n'
    · subst hc
      simp only [extractAux, eq_self_iff_true, if_true]
      rw [List.append_assoc, extract_spec cs [] (by simp), linesSpec_cons_nl cur cs h]
      simp
    · simp only [extractAux, if_neg hc]
      rw [extract_spec cs (cur ++ [c]) (by
        intro hm
        rcases List.mem_append.mp hm with h1 | h1
        · exact h h1
        · simp at h1
          exact hc h1.symm)]
      simp

lemma extractAux_of_no_nl_buf (b t : List Char) (h : '\n' ∉ b) :
    extractAux [] (b ++ t) = extractAux b t := by
  rw [extractAux_append b t [], extractAux_no_nl b [] h]
  simp

lemma feedChunk_split (st : NdState) (a b : List Nat) :
    feedChunk st (a ++ b) =
      ((feedChunk (feedChunk st a).1 b).1,
       (feedChunk st a).2 ++ (feedChunk (feedChunk st a).1 b).2) := by
  unfold feedChunk
  dsimp only
  rw [decodeBytes_append a b st.pending]
  dsimp only
  rw [← List.append_assoc]
  rw [extractAux_append (st.buf ++ (decodeBytes st.pending a).2)
      (decodeBytes (decodeBytes st.pending a).1 b).2 []]
  rw [extractAux_of_no_nl_buf ((extractAux [] (st.buf ++ (decodeBytes st.pending a).2)).2)
      (decodeBytes (decodeBytes st.pending a).1 b).2
      (extractAux_res_no_nl _ [] (by simp))]

lemma runChunks_join :
    ∀ (chunks : List (List Nat)) (st : NdState), '\n' ∉ st.buf →
      runChunks st chunks = feedChunk st chunks.flatten
  | [], st, h => by
    simp only [runChunks, List.flatten_nil]
    unfold feedChunk
    simp only [decodeBytes, List.append_nil]
    rw [extractAux_no_nl st.buf [] h]
    simp
  | c :: cs, st, h => by
    simp only [runChunks, List.flatten_cons]
    rw [runChunks_join cs (feedChunk st c).1 (extractAux_res_no_nl _ [] (by simp))]
    exact (feedChunk_split st c cs.flatten).symm

/-- C2: the sequence of records `forEachNdjson` hands to its callback
depends only on the concatenation of the byte chunks, and equals the
specification sequence - decode the entire stream, split at newlines, trim
every segment (the unterminated trailing one included) and keep the
non-empty ones.  Hence any two chunkings of the same logical byte stream,
including splits inside a multi-byte UTF-8 character or between a line and
its newline, produce the identical ordered record sequence, and
non-whitespace unterminated trailing content is emitted as one final
record. -/
theorem c2_chunk_boundary_independence (chunks : List (List Nat)) (parse : List Char → Game) :
    ndjsonLines chunks = linesSpec (decodeAll chunks.flatten) ∧
    (ndjsonLines chunks).map parse = (linesSpec (decodeAll chunks.flatten)).map parse := by
  have hft : '\n' ∉ decFlush (decodeBytes [] chunks.flatten).1 := by
    unfold decFlush
    by_cases he : (decodeBytes [] chunks.flatten).1.isEmpty
    · simp [he]
    · simp [he]
      decide
  have main : ndjsonLines chunks = linesSpec (decodeAll chunks.flatten) := by
    unfold ndjsonLines
    rw [runChunks_join chunks { pending := [], buf := [] } (by simp)]
    unfold feedChunk finishRun decodeAll
    dsimp only
    rw [List.nil_append]
    have hspec := extract_spec
      ((decodeBytes [] chunks.flatten).2 ++ decFlush (decodeBytes [] chunks.flatten).1) []
      (by simp)
    rw [extractAux_append ((decodeBytes [] chunks.flatten).2)
      (decFlush (decodeBytes [] chunks.flatten).1) [],
      extractAux_no_nl (decFlush (decodeBytes [] chunks.flatten).1)
        ((extractAux [] (decodeBytes [] chunks.flatten).2).2) hft] at hspec
    simpa using hspec
  exact ⟨main, by rw [main]⟩
